import Mathlib

/-!
Verification of the thread scheduler (`threads/thread_com.c`, `threads/thread.h`,
`devices/timer.c`) against its specification.

The C code is shallowly embedded as pure functions over an explicit kernel
state.  Threads live one per page; pages are identified by natural numbers
(`Nat`), standing for the page addresses returned by `palloc_get_page`.  The
module-level statics of `thread_com.c` (`ready_list`, `destruction_req`,
`thread_ticks`, ...) and of `timer.c` (`ticks`) are fields of the `Kernel`
state.  Calls to `palloc_free_page` are recorded in a trace field `freed`, and
every entry into `schedule` bumps a counter `schedCount`, so that temporal
claims ("never freed while running", "no scheduling decision is invoked") can
be stated about the embedding.

`thread_sleep` / `thread_wakeup` are declared in `threads/thread.h` and called
from `devices/timer.c`, but their definitions are not among the provided
sources; they are modelled from the spec (see their doc comments).
-/

namespace Kaist

/-- `enum thread_status` from `threads/thread.h`. -/
inductive Status where
  | RUNNING
  | READY
  | BLOCKED
  | DYING
deriving DecidableEq, Repr

/-- `typedef int tid_t`. -/
abbrev Tid := Int

/-- `#define TID_ERROR ((tid_t) -1)`. -/
def TID_ERROR : Tid := -1

/-- `#define PRI_MIN 0`. -/
def PRI_MIN : Int := 0

/-- `#define PRI_DEFAULT 31`. -/
def PRI_DEFAULT : Int := 31

/-- `#define PRI_MAX 63`. -/
def PRI_MAX : Int := 63

/-- `#define TIME_SLICE 4` (`thread_com.c`). -/
def TIME_SLICE : Nat := 4

/-- `#define THREAD_MAGIC 0xcd6abf4b`. -/
def THREAD_MAGIC : Nat := 0xcd6abf4b

/-- Kernel data segment selector (`SEL_KDSEG`, from the descriptor headers). -/
def SEL_KDSEG : Nat := 0x10

/-- Kernel code segment selector (`SEL_KCSEG`). -/
def SEL_KCSEG : Nat := 0x08

/-- Interrupt-enable flag bit (`FLAG_IF`, `threads/flags.h`). -/
def FLAG_IF : Nat := 0x200

/-- Code addresses that can be installed as a saved instruction pointer.
The only code address `thread_create` ever installs is the trampoline
`kernel_thread`, so the embedding needs just that one. -/
inductive CodePtr where
  | kernelThreadEntry
deriving DecidableEq, Repr

/-- The part of `struct intr_frame` that `thread_create` initialises:
instruction pointer, the two argument registers and the segment/flag words. -/
structure IntrFrame where
  rip : CodePtr
  rdi : Nat
  rsi : Nat
  ds : Nat
  es : Nat
  ss : Nat
  cs : Nat
  eflags : Nat
deriving DecidableEq, Repr

/-- Observable actions of a running kernel thread; `kernel_thread`'s body is
embedded as the trace of actions it performs. -/
inductive KAction where
  | intrEnable
  | callFunc (f : Nat) (aux : Nat)
  | threadExit
deriving DecidableEq, Repr

/-- `kernel_thread` (`thread_com.c`): enables interrupts, runs
`function (aux)`, and calls `thread_exit ()` when the function returns.
The body is straight-line, so it is embedded as the trace it produces. -/
def kernel_thread (function : Nat) (aux : Nat) : List KAction :=
  [KAction.intrEnable, KAction.callFunc function aux, KAction.threadExit]

/-- `do_iret` / `thread_launch`: the first transfer into a fresh thread lands
at the saved `rip` with `rdi`/`rsi` as the first two arguments (x86-64 calling
convention).  With `CodePtr.kernelThreadEntry` the landing site is
`kernel_thread`. -/
def do_iret (tf : IntrFrame) : List KAction :=
  match tf.rip with
  | CodePtr.kernelThreadEntry => kernel_thread tf.rdi tf.rsi

/-- `struct thread`: the fields the scheduler reads and writes
(`tid`, `status`, `name`, `priority`, `wakeup_ticks`, `tf`, `magic`).
The `elem` list node is represented by queue membership in the state. -/
structure TCB where
  tid : Tid
  status : Status
  name : String
  priority : Int
  wakeup_ticks : Int
  tf : IntrFrame
  magic : Nat
deriving DecidableEq, Repr

/-- The all-zero control block produced by `memset (t, 0, sizeof *t)`
(status 0 is `THREAD_RUNNING`, the first enumerator). -/
def zeroTCB : TCB :=
  { tid := 0
    status := Status.RUNNING
    name := ""
    priority := 0
    wakeup_ticks := 0
    tf := { rip := CodePtr.kernelThreadEntry, rdi := 0, rsi := 0,
            ds := 0, es := 0, ss := 0, cs := 0, eflags := 0 }
    magic := 0 }

/-- The kernel state: the module statics of `thread_com.c` and `timer.c`,
the per-page thread control blocks, and two observation traces (`freed`,
`schedCount`).  Pages are identified by `Nat`. -/
structure Kernel where
  /-- Thread control block stored at the bottom of each page. -/
  tcbs : Nat → TCB
  /-- `ready_list`: page ids of READY threads, head = oldest. -/
  readyList : List Nat
  /-- Sleep queue (spec §4.3): page ids ordered by ascending wake deadline. -/
  sleepList : List Nat
  /-- `destruction_req`: page ids pending reclamation. -/
  destructionReq : List Nat
  /-- The page of the currently running thread (`running_thread ()`). -/
  running : Nat
  /-- `idle_thread`. -/
  idleThread : Nat
  /-- `initial_thread` (the bootstrap thread). -/
  initialThread : Nat
  /-- `next_tid` static of `allocate_tid` (starts at 1). -/
  nextTid : Tid
  /-- `thread_ticks`: ticks since the current thread started its slice. -/
  threadTicks : Nat
  /-- `intr_yield_on_return ()` flag of the interrupt layer. -/
  yieldOnReturn : Bool
  /-- `ticks` of `timer.c`: total timer ticks since boot. -/
  ticks : Int
  /-- Interrupt level: `true` = `INTR_ON`. -/
  intrLevel : Bool
  /-- `idle_ticks` statistic. -/
  idleTicks : Int
  /-- `kernel_ticks` statistic. -/
  kernelTicks : Int
  /-- Remaining free pages in the `palloc` pool (0 = exhausted). -/
  allocFuel : Nat
  /-- Next fresh page id handed out by the pool. -/
  nextPage : Nat
  /-- Trace of pages passed to `palloc_free_page`, in call order. -/
  freed : List Nat
  /-- Number of entries into `schedule ()` so far. -/
  schedCount : Nat

/-- Point update of the control-block store. -/
def setTCB (m : Nat → TCB) (p : Nat) (v : TCB) : Nat → TCB :=
  fun q => if q = p then v else m q

/-- Set the `status` field of the thread on page `p`. -/
def setStatus (s : Kernel) (p : Nat) (st : Status) : Kernel :=
  { s with tcbs := setTCB s.tcbs p { s.tcbs p with status := st } }

/-- `palloc_get_page (PAL_ZERO)`: `none` when the pool is exhausted, otherwise
a fresh zeroed page and the shrunk pool. -/
def palloc_get_page (s : Kernel) : Option (Nat × Kernel) :=
  match s.allocFuel with
  | 0 => none
  | n + 1 =>
      some (s.nextPage,
            { s with allocFuel := n
                     nextPage := s.nextPage + 1
                     tcbs := setTCB s.tcbs s.nextPage zeroTCB })

/-- `palloc_free_page (victim)`: recorded in the `freed` trace. -/
def palloc_free_page (s : Kernel) (victim : Nat) : Kernel :=
  { s with freed := s.freed ++ [victim] }

/-- `allocate_tid` (`thread_com.c`): under `tid_lock` (the whole body is one
critical section, here a single atomic step), return `next_tid` and
post-increment it. -/
def allocate_tid (s : Kernel) : Tid × Kernel :=
  (s.nextTid, { s with nextTid := s.nextTid + 1 })

/-- `init_thread` (`thread_com.c`): zero the block, set status `BLOCKED`,
copy the name (truncated to the 16-byte field, 15 characters plus NUL),
set priority and the integrity marker. -/
def init_thread (s : Kernel) (p : Nat) (name : String) (priority : Int) :
    Kernel :=
  let blk : TCB :=
    { zeroTCB with
        status := Status.BLOCKED
        name := name.take 15
        priority := priority
        magic := THREAD_MAGIC }
  { s with tcbs := setTCB s.tcbs p blk }

/-- `thread_unblock` (`thread_com.c`): with interrupts disabled around the
whole operation, assert `t->status == THREAD_BLOCKED` (`none` embeds the
assertion failure / kernel halt), push `t` on the back of `ready_list` and
set its status to `THREAD_READY`; restore the old interrupt level.  It never
calls `schedule`. -/
def thread_unblock (s : Kernel) (t : Nat) : Option Kernel :=
  let old_level := s.intrLevel
  let s1 := { s with intrLevel := false }
  if (s1.tcbs t).status = Status.BLOCKED then
    let s2 := { s1 with readyList := s1.readyList ++ [t] }
    let s3 := setStatus s2 t Status.READY
    some { s3 with intrLevel := old_level }
  else
    none

/-- `next_thread_to_run` (`thread_com.c`): pop the front of `ready_list`,
or return `idle_thread` when the list is empty. -/
def next_thread_to_run (s : Kernel) : Nat × Kernel :=
  match s.readyList with
  | [] => (s.idleThread, s)
  | h :: rest => (h, { s with readyList := rest })

/-- The thread `next_thread_to_run` would select, as a pure observation. -/
def nextChoice (s : Kernel) : Nat :=
  match s.readyList with
  | [] => s.idleThread
  | h :: _ => h

/-- `schedule` (`thread_com.c`): pick the next thread, mark it RUNNING,
reset `thread_ticks`, and if the outgoing thread differs, queue it on
`destruction_req` when it is DYING and not the initial thread, then switch
to the next thread (`thread_launch`).  Entries into `schedule` are counted
in `schedCount`. -/
def schedule (s : Kernel) : Kernel :=
  let curr := s.running
  let pick := next_thread_to_run s
  let next := pick.1
  let s1 := pick.2
  let s2 := setStatus s1 next Status.RUNNING
  let s3 := { s2 with threadTicks := 0, schedCount := s2.schedCount + 1 }
  if curr ≠ next then
    let s4 :=
      if (s3.tcbs curr).status = Status.DYING ∧ curr ≠ s3.initialThread then
        { s3 with destructionReq := s3.destructionReq ++ [curr] }
      else
        s3
    { s4 with running := next }
  else
    s3

/-- `do_schedule (status)` (`thread_com.c`): first drain `destruction_req`,
freeing each queued page with `palloc_free_page`; then set the current
thread's status to `status` and call `schedule`. -/
def do_schedule (s : Kernel) (status : Status) : Kernel :=
  let s1 := { s with freed := s.freed ++ s.destructionReq
                     destructionReq := [] }
  let s2 := setStatus s1 s1.running status
  schedule s2

/-- `thread_create` (`thread_com.c`): allocate a zeroed page (returning
`TID_ERROR` untouched on exhaustion), initialise the block, allocate the tid,
seed the saved context so the first switch-in lands in `kernel_thread` with
`function`/`aux` in `rdi`/`rsi`, and unblock the new thread.  The
`thread_unblock` assertion cannot fire here (the block was just set BLOCKED);
the `none` fallback is unreachable. -/
def thread_create (s : Kernel) (name : String) (priority : Int)
    (function : Nat) (aux : Nat) : Tid × Kernel :=
  match palloc_get_page s with
  | none => (TID_ERROR, s)
  | some (t, s1) =>
      let s2 := init_thread s1 t name priority
      let alloc := allocate_tid s2
      let tid := alloc.1
      let s3 := alloc.2
      let blk : TCB :=
        { s3.tcbs t with
            tid := tid
            tf := { rip := CodePtr.kernelThreadEntry
                    rdi := function
                    rsi := aux
                    ds := SEL_KDSEG
                    es := SEL_KDSEG
                    ss := SEL_KDSEG
                    cs := SEL_KCSEG
                    eflags := FLAG_IF } }
      let s4 := { s3 with tcbs := setTCB s3.tcbs t blk }
      match thread_unblock s4 t with
      | some s5 => (tid, s5)
      | none => (tid, s4)

/-- `thread_block` (`thread_com.c`): set the running thread BLOCKED and
call `schedule`. -/
def thread_block (s : Kernel) : Kernel :=
  schedule (setStatus s s.running Status.BLOCKED)

/-- `thread_yield` (`thread_com.c`): with interrupts disabled, push the
caller on the back of `ready_list` unless it is the idle thread, run
`do_schedule (THREAD_READY)`, and restore the interrupt level. -/
def thread_yield (s : Kernel) : Kernel :=
  let curr := s.running
  let old_level := s.intrLevel
  let s1 := { s with intrLevel := false }
  let s2 :=
    if curr ≠ s1.idleThread then
      { s1 with readyList := s1.readyList ++ [curr] }
    else
      s1
  let s3 := do_schedule s2 Status.READY
  { s3 with intrLevel := old_level }

/-- `thread_exit` (`thread_com.c`): disable interrupts and run
`do_schedule (THREAD_DYING)`; never returns. -/
def thread_exit (s : Kernel) : Kernel :=
  do_schedule { s with intrLevel := false } Status.DYING

/-- `thread_tick` (`thread_com.c`, built without `USERPROG`): bump the
idle/kernel statistic, increment `thread_ticks`, and when it has reached
`TIME_SLICE` request a deferred yield via `intr_yield_on_return`. -/
def thread_tick (s : Kernel) : Kernel :=
  let s1 :=
    if s.running = s.idleThread then
      { s with idleTicks := s.idleTicks + 1 }
    else
      { s with kernelTicks := s.kernelTicks + 1 }
  let s2 := { s1 with threadTicks := s1.threadTicks + 1 }
  if TIME_SLICE ≤ s2.threadTicks then
    { s2 with yieldOnReturn := true }
  else
    s2

/-- Insert a thread into the sleep queue, keeping it ordered by ascending
`wakeup_ticks`; a thread with a deadline equal to existing entries goes
after them, so insertion order is preserved among equal deadlines. -/
def insertByDeadline (m : Nat → TCB) (t : Nat) : List Nat → List Nat
  | [] => [t]
  | h :: rest =>
      if (m t).wakeup_ticks < (m h).wakeup_ticks then
        t :: h :: rest
      else
        h :: insertByDeadline m t rest

/-- Modelled from the spec: `thread_sleep (deadline)` is declared in
`threads/thread.h` and called by `timer_sleep`, but its definition is not in
the provided sources.  Spec §4.3: it sets the caller's wake deadline field,
inserts the caller into the sleep queue ordered by ascending wake deadline
(stable on insertion order for equal deadlines), and then behaves as
`block()`: status BLOCKED, then the scheduling decision — all as one atomic
unit with interrupts disabled. -/
def thread_sleep (s : Kernel) (deadline : Int) : Kernel :=
  let curr := s.running
  let blk : TCB := { s.tcbs curr with wakeup_ticks := deadline }
  let s1 := { s with tcbs := setTCB s.tcbs curr blk }
  let s2 := { s1 with sleepList := insertByDeadline s1.tcbs curr s1.sleepList }
  let s3 := setStatus s2 curr Status.BLOCKED
  schedule s3

/-- One step of the `thread_wakeup` drain loop over the sleep queue: while
the head's deadline is ≤ `now`, remove it and `thread_unblock` it; stop at
the first entry whose deadline is still in the future.  `pending` is the
current sleep queue; the final state's `sleepList` is what remains. -/
def wakeupAux (now : Int) : List Nat → Kernel → Option Kernel
  | [], s => some { s with sleepList := [] }
  | h :: rest, s =>
      if (s.tcbs h).wakeup_ticks ≤ now then
        match thread_unblock s h with
        | some s1 => wakeupAux now rest s1
        | none => none
      else
        some { s with sleepList := h :: rest }

/-- Modelled from the spec: `thread_wakeup (now)` is declared in
`threads/thread.h` and called once per tick by `timer_interrupt`, but its
definition is not in the provided sources.  Spec §4.3: repeatedly inspect the
sleep-queue head and, while its deadline is ≤ `now`, remove it and call
unblock on it; stop at the first remaining entry whose deadline is in the
future. -/
def thread_wakeup (s : Kernel) (now : Int) : Option Kernel :=
  wakeupAux now s.sleepList s

/-- `timer_ticks` (`timer.c`): read the boot tick counter. -/
def timer_ticks (s : Kernel) : Int :=
  s.ticks

/-- `timer_sleep (ticks)` (`timer.c`): record `start = timer_ticks ()` and
call `thread_sleep (start + ticks)`. -/
def timer_sleep (s : Kernel) (sleep_ticks : Int) : Kernel :=
  let start := timer_ticks s
  thread_sleep s (start + sleep_ticks)

/-- `timer_interrupt` (`timer.c`): increment `ticks`, call `thread_tick ()`,
then `thread_wakeup (ticks)`. -/
def timer_interrupt (s : Kernel) : Option Kernel :=
  let s1 := { s with ticks := s.ticks + 1 }
  let s2 := thread_tick s1
  thread_wakeup s2 s2.ticks

/-- Sequence of thread ids handed out by `n` consecutive `allocate_tid`
calls. -/
def tidSeq (s : Kernel) : Nat → List Tid
  | 0 => []
  | n + 1 =>
      let a := allocate_tid s
      a.1 :: tidSeq a.2 n

/-- A small concrete kernel used to instantiate theorems: the bootstrap
thread is running on page 0, the idle thread lives on page 100. -/
def baseK : Kernel :=
  { tcbs := fun _ => zeroTCB
    readyList := []
    sleepList := []
    destructionReq := []
    running := 0
    idleThread := 100
    initialThread := 0
    nextTid := 1
    threadTicks := 0
    yieldOnReturn := false
    ticks := 0
    intrLevel := true
    idleTicks := 0
    kernelTicks := 0
    allocFuel := 8
    nextPage := 1
    freed := []
    schedCount := 0 }

/-- Concrete kernel with a READY thread on page 1 and a thread on page 2
sleeping until tick 60; the bootstrap thread (page 0) is running. -/
def sleeper60 : TCB :=
  { zeroTCB with status := Status.BLOCKED, wakeup_ticks := 60 }

def exK : Kernel :=
  { baseK with
    tcbs := fun p =>
      if p = 1 then { zeroTCB with status := Status.READY } else
      if p = 2 then sleeper60 else
      zeroTCB
    readyList := [1]
    sleepList := [2]
    ticks := 10 }

@[simp] lemma setTCB_self (m : Nat → TCB) (p : Nat) (v : TCB) :
    setTCB m p v p = v := by
  simp [setTCB]

@[simp] lemma setTCB_other (m : Nat → TCB) (p q : Nat) (v : TCB)
    (h : q ≠ p) : setTCB m p v q = m q := by
  simp [setTCB, h]

lemma setTCB_apply (m : Nat → TCB) (p q : Nat) (v : TCB) :
    setTCB m p v q = if q = p then v else m q := rfl

/-- Claim C3: if the page allocator is exhausted, `thread_create` returns
`TID_ERROR` and the whole kernel state — in particular the ready queue and
the tid counter — is exactly as before the call. -/
theorem thread_create_alloc_failure (s : Kernel) (name : String)
    (priority : Int) (function aux : Nat) (h : s.allocFuel = 0) :
    thread_create s name priority function aux = (TID_ERROR, s) ∧
    (thread_create s name priority function aux).2.readyList = s.readyList ∧
    (thread_create s name priority function aux).2.nextTid = s.nextTid := by
  have hc : thread_create s name priority function aux = (TID_ERROR, s) := by
    simp [thread_create, palloc_get_page, h]
  exact ⟨hc, by rw [hc], by rw [hc]⟩

/-- Witness for C3 at a concrete exhausted-pool state. -/
theorem thread_create_alloc_failure_witness :
    thread_create { baseK with allocFuel := 0 } "w" 31 7 9 =
      (TID_ERROR, { baseK with allocFuel := 0 }) ∧
    (thread_create { baseK with allocFuel := 0 } "w" 31 7 9).2.readyList =
      ({ baseK with allocFuel := 0 } : Kernel).readyList ∧
    (thread_create { baseK with allocFuel := 0 } "w" 31 7 9).2.nextTid =
      ({ baseK with allocFuel := 0 } : Kernel).nextTid :=
  thread_create_alloc_failure { baseK with allocFuel := 0 } "w" 31 7 9 rfl

/-- Claim C4: `next_thread_to_run` yields the idle thread iff the ready
queue is empty; otherwise it removes and returns the oldest element (the
head) of the ready queue. -/
theorem next_thread_to_run_spec (s : Kernel)
    (hidle : s.idleThread ∉ s.readyList) :
    ((next_thread_to_run s).1 = s.idleThread ↔ s.readyList = []) ∧
    (next_thread_to_run s).2.readyList = s.readyList.tail ∧
    (s.readyList ≠ [] →
      (next_thread_to_run s).1 :: (next_thread_to_run s).2.readyList =
        s.readyList) := by
  cases hl : s.readyList with
  | nil => simp [next_thread_to_run, hl]
  | cons h rest =>
      rw [hl] at hidle
      have hne : h ≠ s.idleThread := by
        intro he
        exact hidle (he ▸ List.mem_cons_self h rest)
      simp [next_thread_to_run, hl, hne]

/-- Witness for C4: a ready queue holding pages 1 and 2. -/
theorem next_thread_to_run_spec_witness :
    ((next_thread_to_run { baseK with readyList := [1, 2] }).1 =
        ({ baseK with readyList := [1, 2] } : Kernel).idleThread ↔
      ({ baseK with readyList := [1, 2] } : Kernel).readyList = []) ∧
    (next_thread_to_run { baseK with readyList := [1, 2] }).2.readyList =
      ({ baseK with readyList := [1, 2] } : Kernel).readyList.tail ∧
    (({ baseK with readyList := [1, 2] } : Kernel).readyList ≠ [] →
      (next_thread_to_run { baseK with readyList := [1, 2] }).1 ::
          (next_thread_to_run { baseK with readyList := [1, 2] }).2.readyList =
        ({ baseK with readyList := [1, 2] } : Kernel).readyList) :=
  next_thread_to_run_spec { baseK with readyList := [1, 2] } (by decide)

/-- On a BLOCKED target, `thread_unblock` succeeds and its whole effect is
the ready-queue append and the status flip; the caller's interrupt level is
restored. -/
lemma thread_unblock_of_blocked (s : Kernel) (t : Nat)
    (h : (s.tcbs t).status = Status.BLOCKED) :
    thread_unblock s t =
      some { s with readyList := s.readyList ++ [t]
                    tcbs := setTCB s.tcbs t
                      { s.tcbs t with status := Status.READY } } := by
  simp [thread_unblock, setStatus, h]

/-- Claim C5: `thread_unblock` halts (assertion failure) unless the target
is BLOCKED; when it is, the target is appended to the ready-queue tail and
marked READY, no other thread is touched, the running thread and the
scheduling state are untouched (no scheduling decision, no preemption), and
the caller's interrupt level is restored. -/
theorem thread_unblock_spec (s : Kernel) (t : Nat) :
    ((s.tcbs t).status ≠ Status.BLOCKED → thread_unblock s t = none) ∧
    ((s.tcbs t).status = Status.BLOCKED →
      ∃ s', thread_unblock s t = some s' ∧
        s'.readyList = s.readyList ++ [t] ∧
        (s'.tcbs t).status = Status.READY ∧
        (∀ u, u ≠ t → s'.tcbs u = s.tcbs u) ∧
        s'.running = s.running ∧
        s'.schedCount = s.schedCount ∧
        s'.threadTicks = s.threadTicks ∧
        s'.intrLevel = s.intrLevel) := by
  constructor
  · intro h
    simp [thread_unblock, h]
  · intro h
    refine ⟨_, thread_unblock_of_blocked s t h, rfl, by simp, ?_, rfl, rfl,
      rfl, rfl⟩
    intro u hu
    simp [setTCB, hu]

/-- Witness for C5: unblocking the sleeper on page 2 of `exK`, whose
status is concretely BLOCKED. -/
theorem thread_unblock_spec_witness :
    ∃ s', thread_unblock exK 2 = some s' ∧
      s'.readyList = exK.readyList ++ [2] ∧
      (s'.tcbs 2).status = Status.READY ∧
      (∀ u, u ≠ 2 → s'.tcbs u = exK.tcbs u) ∧
      s'.running = exK.running ∧
      s'.schedCount = exK.schedCount ∧
      s'.threadTicks = exK.threadTicks ∧
      s'.intrLevel = exK.intrLevel :=
  (thread_unblock_spec exK 2).2 (by decide)

/-- Claim C6: a successfully created thread's saved context points at the
trampoline `kernel_thread` with `function` and `aux` installed in the two
argument registers, so the first switch-in (`do_iret` on the saved frame)
enables interrupts, runs `function (aux)`, and exits the thread when the
function returns. -/
theorem thread_create_context (s : Kernel) (name : String) (priority : Int)
    (function aux : Nat) (h : s.allocFuel ≠ 0) :
    ∃ tid s', thread_create s name priority function aux = (tid, s') ∧
      (s'.tcbs s.nextPage).tf.rip = CodePtr.kernelThreadEntry ∧
      (s'.tcbs s.nextPage).tf.rdi = function ∧
      (s'.tcbs s.nextPage).tf.rsi = aux ∧
      do_iret (s'.tcbs s.nextPage).tf =
        [KAction.intrEnable, KAction.callFunc function aux,
         KAction.threadExit] := by
  obtain ⟨n, hn⟩ : ∃ n, s.allocFuel = n + 1 := by
    cases hf : s.allocFuel with
    | zero => exact absurd hf h
    | succ n => exact ⟨n, rfl⟩
  refine ⟨(thread_create s name priority function aux).1,
    (thread_create s name priority function aux).2, rfl, ?_, ?_, ?_, ?_⟩ <;>
    simp [thread_create, palloc_get_page, hn, init_thread, allocate_tid,
      thread_unblock, setStatus, setTCB, do_iret, kernel_thread]

/-- Witness for C6: creating a worker thread in `exK` (pool not empty). -/
theorem thread_create_context_witness :
    ∃ tid s', thread_create exK ("worker") 31 7 9 = (tid, s') ∧
      (s'.tcbs exK.nextPage).tf.rip = CodePtr.kernelThreadEntry ∧
      (s'.tcbs exK.nextPage).tf.rdi = 7 ∧
      (s'.tcbs exK.nextPage).tf.rsi = 9 ∧
      do_iret (s'.tcbs exK.nextPage).tf =
        [KAction.intrEnable, KAction.callFunc 7 9, KAction.threadExit] :=
  thread_create_context exK ("worker") 31 7 9 (by decide)

/-- `thread_tick` always advances the per-quantum counter by one. -/
lemma thread_tick_threadTicks (s : Kernel) :
    (thread_tick s).threadTicks = s.threadTicks + 1 := by
  simp only [thread_tick]
  split_ifs <;> rfl

/-- The yield flag after `thread_tick`: raised exactly when already raised
or the incremented counter has reached the quantum. -/
lemma thread_tick_yieldOnReturn (s : Kernel) :
    (thread_tick s).yieldOnReturn =
      (s.yieldOnReturn || decide (TIME_SLICE ≤ s.threadTicks + 1)) := by
  by_cases h1 : s.running = s.idleThread <;>
    by_cases h2 : TIME_SLICE ≤ s.threadTicks + 1 <;>
      simp [thread_tick, h1, h2]

/-- `schedule` starts a fresh time slice. -/
lemma schedule_threadTicks (s : Kernel) : (schedule s).threadTicks = 0 := by
  cases hl : s.readyList with
  | nil =>
      simp only [schedule, next_thread_to_run, hl]
      split_ifs <;> rfl
  | cons h rest =>
      simp only [schedule, next_thread_to_run, hl]
      split_ifs <;> rfl

/-- `do_schedule` ends in `schedule`, so it also resets the slice. -/
lemma do_schedule_threadTicks (s : Kernel) (st : Status) :
    (do_schedule s st).threadTicks = 0 :=
  schedule_threadTicks _

/-- Claim C7: every timer tick increments the per-quantum counter, the
counter reaching `TIME_SLICE` raises the deferred-yield flag (and is the
only way a tick raises it), and every scheduling decision resets the
counter to zero. -/
theorem thread_tick_quantum (s : Kernel) :
    (thread_tick s).threadTicks = s.threadTicks + 1 ∧
    ((thread_tick s).yieldOnReturn =
      (s.yieldOnReturn || decide (TIME_SLICE ≤ s.threadTicks + 1))) ∧
    (∀ s2 st, (do_schedule s2 st).threadTicks = 0) ∧
    (∀ s2, (schedule s2).threadTicks = 0) :=
  ⟨thread_tick_threadTicks s, thread_tick_yieldOnReturn s,
    fun s2 st => do_schedule_threadTicks s2 st,
    fun s2 => schedule_threadTicks s2⟩

/-- Iterating `thread_tick` adds one per tick to the quantum counter. -/
lemma iterate_thread_tick_threadTicks (s : Kernel) :
    ∀ k, (thread_tick^[k] s).threadTicks = s.threadTicks + k := by
  intro k
  induction k with
  | zero => rfl
  | succ k ih =>
      rw [Function.iterate_succ_apply', thread_tick_threadTicks, ih]
      omega

/-- A tick whose incremented counter is at least the quantum raises the
yield flag. -/
lemma thread_tick_flag_of_ge (s : Kernel)
    (h : TIME_SLICE ≤ s.threadTicks + 1) :
    (thread_tick s).yieldOnReturn = true := by
  rw [thread_tick_yieldOnReturn]
  simp [h]

/-- Claim C10: the deferred-yield request is raised on every tick whose
incremented counter is at least `TIME_SLICE` (the comparison is `>=`, not
`==`), so while no scheduling decision resets the counter the request is
re-raised on each subsequent tick and an expired quantum is never lost. -/
theorem thread_tick_repreempt (s : Kernel)
    (h : TIME_SLICE ≤ s.threadTicks + 1) :
    (thread_tick s).yieldOnReturn = true ∧
    ∀ k, (thread_tick^[k + 1] s).yieldOnReturn = true := by
  refine ⟨thread_tick_flag_of_ge s h, ?_⟩
  intro k
  rw [Function.iterate_succ_apply']
  apply thread_tick_flag_of_ge
  rw [iterate_thread_tick_threadTicks]
  omega

/-- Witness for C10: a counter already past the quantum (7 ticks into a
4-tick slice, flag currently clear) still gets the request raised, on this
tick and on each later one. -/
theorem thread_tick_repreempt_witness :
    (thread_tick { baseK with threadTicks := 7 }).yieldOnReturn = true ∧
    ∀ k, (thread_tick^[k + 1]
      ({ baseK with threadTicks := 7 } : Kernel)).yieldOnReturn = true :=
  thread_tick_repreempt { baseK with threadTicks := 7 } (by decide)

/-- `n` consecutive `allocate_tid` calls return the counter values
`nextTid, nextTid + 1, ...` in order. -/
lemma tidSeq_eq_range (s : Kernel) (n : Nat) :
    tidSeq s n = (List.range n).map (fun k : Nat => s.nextTid + (k : Int)) := by
  induction n generalizing s with
  | zero => rfl
  | succ n ih =>
      simp only [tidSeq, allocate_tid]
      rw [ih, List.range_succ_eq_map, List.map_cons, List.map_map]
      congr 1
      · simp
      · apply List.map_congr_left
        intro a _
        simp only [Function.comp]
        push_cast
        ring

/-- Claim C8: `allocate_tid` returns the counter (which starts at 1) and
post-increments it, so across any sequence of allocations the returned
identities are strictly increasing, pairwise distinct, and never zero. -/
theorem allocate_tid_monotone (s : Kernel) (h : 1 ≤ s.nextTid) (n : Nat) :
    (allocate_tid s).1 = s.nextTid ∧
    (allocate_tid s).2.nextTid = s.nextTid + 1 ∧
    tidSeq s n = (List.range n).map (fun k : Nat => s.nextTid + (k : Int)) ∧
    (tidSeq s n).Pairwise (· < ·) ∧
    (tidSeq s n).Nodup ∧
    (0 : Tid) ∉ tidSeq s n := by
  have hrange := tidSeq_eq_range s n
  have hpw : (tidSeq s n).Pairwise (· < ·) := by
    rw [hrange]
    refine List.Pairwise.map _ ?_ (List.pairwise_lt_range n)
    intro a b hab
    show s.nextTid + (a : Int) < s.nextTid + (b : Int)
    have hab' : (a : Int) < (b : Int) := by exact_mod_cast hab
    linarith
  refine ⟨rfl, rfl, hrange, hpw, hpw.nodup, ?_⟩
  rw [hrange]
  intro hmem
  obtain ⟨k, _, hk⟩ := List.mem_map.mp hmem
  have hz : s.nextTid + (k : Int) = 0 := hk
  have hk0 : (0 : Int) ≤ (k : Int) := Int.natCast_nonneg k
  linarith

/-- Witness for C8: three allocations from the boot state (counter 1)
return 1, 2, 3. -/
theorem allocate_tid_monotone_witness :
    (allocate_tid baseK).1 = baseK.nextTid ∧
    (allocate_tid baseK).2.nextTid = baseK.nextTid + 1 ∧
    tidSeq baseK 3 = (List.range 3).map (fun k : Nat => baseK.nextTid + (k : Int)) ∧
    (tidSeq baseK 3).Pairwise (· < ·) ∧
    (tidSeq baseK 3).Nodup ∧
    (0 : Tid) ∉ tidSeq baseK 3 :=
  allocate_tid_monotone baseK (by decide) 3

/-- Claim C9: `thread_yield` appends the caller to the ready-queue tail iff
the caller is not the idle thread, then runs the scheduling decision with
target status READY: with a non-empty ready queue the old head is switched
in and the caller waits READY at the tail; with an empty queue the caller is
immediately re-chosen; the idle thread is never appended, so the ready queue
stays free of the idle thread. -/
theorem thread_yield_spec (s : Kernel) (hrun : s.running ∉ s.readyList) :
    (∀ h rest, s.running ≠ s.idleThread → s.readyList = h :: rest →
      (thread_yield s).running = h ∧
      (thread_yield s).readyList = rest ++ [s.running] ∧
      ((thread_yield s).tcbs s.running).status = Status.READY ∧
      (thread_yield s).schedCount = s.schedCount + 1) ∧
    (s.running ≠ s.idleThread → s.readyList = [] →
      (thread_yield s).running = s.running ∧
      (thread_yield s).readyList = [] ∧
      ((thread_yield s).tcbs s.running).status = Status.RUNNING) ∧
    (s.running = s.idleThread → s.readyList = [] →
      (thread_yield s).readyList = []) ∧
    (s.idleThread ∉ s.readyList → s.idleThread ∉ (thread_yield s).readyList)
    := by
  refine ⟨?_, ?_, ?_, ?_⟩
  · intro h rest hni hl
    have hne : h ≠ s.running := by
      intro he
      rw [hl] at hrun
      exact hrun (he ▸ List.mem_cons_self h rest)
    have hcn : s.running ≠ h := fun e => hne e.symm
    simp [thread_yield, do_schedule, schedule, next_thread_to_run, setStatus,
      setTCB, hl, hni, hcn, hne]
  · intro hni hl
    simp [thread_yield, do_schedule, schedule, next_thread_to_run, setStatus,
      setTCB, hl, hni]
  · intro hid hl
    simp [thread_yield, do_schedule, schedule, next_thread_to_run, setStatus,
      setTCB, hl, hid]
  · intro hidle
    by_cases hni : s.running = s.idleThread
    · cases hl : s.readyList with
      | nil =>
          simp [thread_yield, do_schedule, schedule, next_thread_to_run,
            setStatus, setTCB, hl, hni]
      | cons h rest =>
          rw [hl] at hidle
          have hih : s.idleThread ≠ h := by
            intro he
            exact hidle (he ▸ List.mem_cons_self h rest)
          have hhi : h ≠ s.idleThread := fun e => hih e.symm
          have hrest : s.idleThread ∉ rest :=
            fun hm => hidle (List.mem_cons_of_mem h hm)
          simp [thread_yield, do_schedule, schedule, next_thread_to_run,
            setStatus, setTCB, hl, hni, hih, hhi, hrest]
    · cases hl : s.readyList with
      | nil =>
          simp [thread_yield, do_schedule, schedule, next_thread_to_run,
            setStatus, setTCB, hl, hni]
      | cons h rest =>
          rw [hl] at hidle hrun
          have hir : s.idleThread ∉ rest :=
            fun hm => hidle (List.mem_cons_of_mem h hm)
          have hne : h ≠ s.running := by
            intro he
            exact hrun (he ▸ List.mem_cons_self h rest)
          have hcn : s.running ≠ h := fun e => hne e.symm
          have hic : s.idleThread ≠ s.running := fun e => hni e.symm
          simp [thread_yield, do_schedule, schedule, next_thread_to_run,
            setStatus, setTCB, hl, hni, hcn, hne, hir, hic]

/-- Witness for C9: in `exK` the running bootstrap thread (not idle, not in
the ready queue) yields; thread 1 is switched in and the caller is appended. -/
theorem thread_yield_spec_witness :
    (thread_yield exK).running = 1 ∧
    (thread_yield exK).readyList = [] ++ [exK.running] ∧
    ((thread_yield exK).tcbs exK.running).status = Status.READY ∧
    (thread_yield exK).schedCount = exK.schedCount + 1 :=
  (thread_yield_spec exK (by decide)).1 1 [] (by decide) (by decide)

/-- `schedule` never calls `palloc_free_page`. -/
lemma schedule_freed (s : Kernel) : (schedule s).freed = s.freed := by
  cases hl : s.readyList with
  | nil =>
      simp only [schedule, next_thread_to_run, hl]
      split_ifs <;> rfl
  | cons h rest =>
      simp only [schedule, next_thread_to_run, hl]
      split_ifs <;> rfl

/-- `schedule` either leaves the destruction queue alone or appends exactly
the outgoing thread. -/
lemma schedule_destructionReq_cases (s : Kernel) :
    (schedule s).destructionReq = s.destructionReq ∨
    (schedule s).destructionReq = s.destructionReq ++ [s.running] := by
  cases hl : s.readyList with
  | nil =>
      simp only [schedule, next_thread_to_run, hl]
      split_ifs <;> simp [setStatus]
  | cons h rest =>
      simp only [schedule, next_thread_to_run, hl]
      split_ifs <;> simp [setStatus]

/-- After `schedule`, the selected thread is running. -/
lemma schedule_running (s : Kernel) : (schedule s).running = nextChoice s := by
  cases hl : s.readyList with
  | nil =>
      simp only [schedule, next_thread_to_run, nextChoice, hl]
      split_ifs with hc hd <;> first
        | rfl
        | (push_neg at hc; exact hc)
  | cons h rest =>
      simp only [schedule, next_thread_to_run, nextChoice, hl]
      split_ifs with hc hd <;> first
        | rfl
        | (push_neg at hc; exact hc)

/-- `nextChoice` only looks at the ready queue and the idle thread. -/
lemma nextChoice_congr (a b : Kernel) (hr : a.readyList = b.readyList)
    (hi : a.idleThread = b.idleThread) : nextChoice a = nextChoice b := by
  unfold nextChoice
  rw [hr, hi]

/-- `do_schedule` frees exactly the pages queued on `destruction_req` at
entry, in queue order, and nothing else. -/
lemma do_schedule_freed (s : Kernel) (st : Status) :
    (do_schedule s st).freed = s.freed ++ s.destructionReq := by
  simp only [do_schedule]
  rw [schedule_freed]
  rfl

/-- After `do_schedule` the destruction queue is empty or holds exactly the
outgoing thread. -/
lemma do_schedule_destructionReq_cases (s : Kernel) (st : Status) :
    (do_schedule s st).destructionReq = [] ∨
    (do_schedule s st).destructionReq = [s.running] := by
  simp only [do_schedule]
  have h := schedule_destructionReq_cases
    (setStatus { s with freed := s.freed ++ s.destructionReq
                        destructionReq := [] } s.running st)
  simpa [setStatus] using h

/-- After `do_schedule` the selected thread is running. -/
lemma do_schedule_running (s : Kernel) (st : Status) :
    (do_schedule s st).running = nextChoice s := by
  simp only [do_schedule]
  rw [schedule_running]
  exact nextChoice_congr _ _ rfl rfl

/-- When the outgoing thread is DYING, distinct from the chosen next thread
and not the bootstrap thread, `schedule` appends it to the destruction
queue. -/
lemma schedule_push_dying (s : Kernel) (hne : nextChoice s ≠ s.running)
    (hdy : (s.tcbs s.running).status = Status.DYING)
    (hinit : s.running ≠ s.initialThread) :
    (schedule s).destructionReq = s.destructionReq ++ [s.running] := by
  cases hl : s.readyList with
  | nil =>
      simp only [nextChoice, hl] at hne
      have hrn : s.running ≠ s.idleThread := fun e => hne e.symm
      simp [schedule, next_thread_to_run, hl, setStatus, setTCB, hrn, hne,
        hdy, hinit]
  | cons h rest =>
      simp only [nextChoice, hl] at hne
      have hrn : s.running ≠ h := fun e => hne e.symm
      simp [schedule, next_thread_to_run, hl, setStatus, setTCB, hrn, hne,
        hdy, hinit]

/-- Claim C2: when the scheduling decision switches away from a DYING,
non-bootstrap thread, that thread's page is not freed during the call —
it is appended to the destruction queue while the drain frees exactly the
pages queued before the call (never the caller's own, which is not queued);
some other thread is then running, and the drain at the start of the next
scheduling decision frees the dead thread's page exactly once and removes
it from the queue. -/
theorem dying_thread_deferred_free (s : Kernel)
    (h1 : s.running ∉ s.destructionReq)
    (h1' : s.running ∉ s.freed)
    (h2 : nextChoice s ≠ s.running)
    (h3 : s.running ≠ s.initialThread) :
    (do_schedule s Status.DYING).freed = s.freed ++ s.destructionReq ∧
    s.running ∉ (do_schedule s Status.DYING).freed ∧
    (do_schedule s Status.DYING).destructionReq = [s.running] ∧
    (do_schedule s Status.DYING).running = nextChoice s ∧
    (do_schedule s Status.DYING).running ≠ s.running ∧
    (∀ st,
      ((do_schedule (do_schedule s Status.DYING) st).freed.count s.running
          = 1 ∧
        s.running ∉
          (do_schedule (do_schedule s Status.DYING) st).destructionReq)) := by
  have hfreed : (do_schedule s Status.DYING).freed =
      s.freed ++ s.destructionReq := do_schedule_freed s Status.DYING
  have hnot : s.running ∉ (do_schedule s Status.DYING).freed := by
    rw [hfreed]
    intro hm
    rcases List.mem_append.mp hm with hm | hm
    · exact h1' hm
    · exact h1 hm
  have hdreq : (do_schedule s Status.DYING).destructionReq = [s.running] := by
    simp only [do_schedule]
    rw [schedule_push_dying]
    · simp [setStatus]
    · have : nextChoice (setStatus { s with
          freed := s.freed ++ s.destructionReq
          destructionReq := [] } s.running Status.DYING) = nextChoice s :=
        nextChoice_congr _ _ rfl rfl
      rw [this]
      exact h2
    · simp [setStatus, setTCB]
    · exact h3
  have hrunning : (do_schedule s Status.DYING).running = nextChoice s :=
    do_schedule_running s Status.DYING
  have hrne : (do_schedule s Status.DYING).running ≠ s.running := by
    rw [hrunning]
    exact h2
  refine ⟨hfreed, hnot, hdreq, hrunning, hrne, ?_⟩
  intro st
  constructor
  · rw [do_schedule_freed, List.count_append, hfreed, hdreq,
      List.count_append]
    rw [List.count_eq_zero_of_not_mem h1', List.count_eq_zero_of_not_mem h1]
    simp
  · rcases do_schedule_destructionReq_cases (do_schedule s Status.DYING) st
      with hc | hc <;> rw [hc]
    · simp
    · simp only [List.mem_singleton]
      intro he
      exact hrne he.symm

/-- Witness for C2: in `exK` the bootstrap thread is running, so let a
DYING switch-away happen on a non-bootstrap state: page 5 runs, page 1 is
ready, page 5 exits. -/
theorem dying_thread_deferred_free_witness :
    (do_schedule { exK with running := 5 } Status.DYING).freed =
      ({ exK with running := 5 } : Kernel).freed ++
        ({ exK with running := 5 } : Kernel).destructionReq ∧
    ({ exK with running := 5 } : Kernel).running ∉
      (do_schedule { exK with running := 5 } Status.DYING).freed ∧
    (do_schedule { exK with running := 5 } Status.DYING).destructionReq =
      [({ exK with running := 5 } : Kernel).running] ∧
    (do_schedule { exK with running := 5 } Status.DYING).running =
      nextChoice { exK with running := 5 } ∧
    (do_schedule { exK with running := 5 } Status.DYING).running ≠
      ({ exK with running := 5 } : Kernel).running ∧
    (∀ st,
      ((do_schedule (do_schedule { exK with running := 5 } Status.DYING)
          st).freed.count ({ exK with running := 5 } : Kernel).running = 1 ∧
        ({ exK with running := 5 } : Kernel).running ∉
          (do_schedule (do_schedule { exK with running := 5 } Status.DYING)
            st).destructionReq)) :=
  dying_thread_deferred_free { exK with running := 5 } (by decide) (by decide)
    (by decide) (by decide)

/-- `insertByDeadline` places the new thread immediately after every entry
whose deadline is at most its own: insertion is stable, so equal deadlines
keep sleep-call order. -/
lemma insertByDeadline_eq (m : Nat → TCB) (u : Nat) (l : List Nat) :
    insertByDeadline m u l =
      l.takeWhile (fun v => decide ((m v).wakeup_ticks ≤ (m u).wakeup_ticks))
        ++ u :: l.dropWhile
          (fun v => decide ((m v).wakeup_ticks ≤ (m u).wakeup_ticks)) := by
  induction l with
  | nil => rfl
  | cons h rest ih =>
      by_cases hc : (m u).wakeup_ticks < (m h).wakeup_ticks
      · have hp : ¬ ((m h).wakeup_ticks ≤ (m u).wakeup_ticks) := by omega
        simp [insertByDeadline, hc, List.takeWhile_cons, List.dropWhile_cons,
          hp]
      · have hp : (m h).wakeup_ticks ≤ (m u).wakeup_ticks := by omega
        simp [insertByDeadline, hc, List.takeWhile_cons, List.dropWhile_cons,
          hp, ih]

/-- Full characterisation of the `thread_wakeup` drain loop: given the
pending sleep queue (all BLOCKED, no duplicates, deadlines given by `w`),
the loop succeeds, wakes exactly the longest due prefix — appending it in
queue order to the ready-queue tail — and leaves the rest asleep. -/
lemma wakeupAux_spec (now : Int) (w : Nat → Int) :
    ∀ (pending : List Nat) (s : Kernel),
      (∀ u ∈ pending, (s.tcbs u).status = Status.BLOCKED) →
      pending.Nodup →
      (∀ u, (s.tcbs u).wakeup_ticks = w u) →
      ∃ s', wakeupAux now pending s = some s' ∧
        s'.sleepList = pending.dropWhile (fun u => decide (w u ≤ now)) ∧
        s'.readyList = s.readyList
          ++ pending.takeWhile (fun u => decide (w u ≤ now)) ∧
        (∀ u, u ∉ pending.takeWhile (fun u => decide (w u ≤ now)) →
          (s'.tcbs u).status = (s.tcbs u).status) ∧
        (∀ u, u ∈ pending.takeWhile (fun u => decide (w u ≤ now)) →
          (s'.tcbs u).status = Status.READY) ∧
        (∀ u, (s'.tcbs u).wakeup_ticks = w u) ∧
        s'.running = s.running := by
  intro pending
  induction pending with
  | nil =>
      intro s hb hnd hw
      refine ⟨{ s with sleepList := [] }, rfl, by simp, by simp, ?_, ?_,
        hw, rfl⟩
      · intro u _
        rfl
      · intro u hu
        simp at hu
  | cons h rest ih =>
      intro s hb hnd hw
      have hnd' := List.nodup_cons.mp hnd
      by_cases hc : w h ≤ now
      · have hs : (s.tcbs h).status = Status.BLOCKED :=
          hb h (List.mem_cons_self h rest)
        have hcond : (s.tcbs h).wakeup_ticks ≤ now := by
          rw [hw]
          exact hc
        have hub := thread_unblock_of_blocked s h hs
        have hb' : ∀ u ∈ rest,
            (({ s with readyList := s.readyList ++ [h]
                       tcbs := setTCB s.tcbs h
                         { s.tcbs h with status := Status.READY } } :
              Kernel).tcbs u).status = Status.BLOCKED := by
          intro u hu
          have hne : u ≠ h := fun he => hnd'.1 (he ▸ hu)
          simpa [setTCB, hne] using hb u (List.mem_cons_of_mem h hu)
        have hw' : ∀ u,
            (({ s with readyList := s.readyList ++ [h]
                       tcbs := setTCB s.tcbs h
                         { s.tcbs h with status := Status.READY } } :
              Kernel).tcbs u).wakeup_ticks = w u := by
          intro u
          by_cases he : u = h
          · subst he
            simpa [setTCB] using hw u
          · simpa [setTCB, he] using hw u
        obtain ⟨s', hrun, hsl, hrl, hstat1, hstat2, hw'', hrn⟩ :=
          ih _ hb' hnd'.2 hw'
        have heq : wakeupAux now (h :: rest) s = some s' := by
          simp only [wakeupAux]
          rw [if_pos hcond, hub]
          exact hrun
        have hph : decide (w h ≤ now) = true := decide_eq_true hc
        have htake : (h :: rest).takeWhile (fun u => decide (w u ≤ now)) =
            h :: rest.takeWhile (fun u => decide (w u ≤ now)) := by
          simp [List.takeWhile_cons, hc]
        have hdrop : (h :: rest).dropWhile (fun u => decide (w u ≤ now)) =
            rest.dropWhile (fun u => decide (w u ≤ now)) := by
          simp [List.dropWhile_cons, hc]
        have hhnotin : h ∉ rest.takeWhile (fun u => decide (w u ≤ now)) :=
          fun hm => hnd'.1 ((List.takeWhile_sublist _).mem hm)
        refine ⟨s', heq, ?_, ?_, ?_, ?_, hw'', hrn⟩
        · rw [hdrop]
          exact hsl
        · rw [htake, hrl]
          simp
        · intro u hu
          rw [htake] at hu
          have hune : u ≠ h := fun he => hu (he ▸ List.mem_cons_self _ _)
          have hunotin : u ∉ rest.takeWhile (fun u => decide (w u ≤ now)) :=
            fun hm => hu (List.mem_cons_of_mem _ hm)
          rw [hstat1 u hunotin]
          simp [setTCB, hune]
        · intro u hu
          rw [htake] at hu
          rcases List.mem_cons.mp hu with he | hm
          · subst he
            rw [hstat1 u hhnotin]
            simp [setTCB]
          · exact hstat2 u hm
      · have hcond : ¬ ((s.tcbs h).wakeup_ticks ≤ now) := by
          rw [hw]
          exact hc
        have heq : wakeupAux now (h :: rest) s =
            some { s with sleepList := h :: rest } := by
          simp only [wakeupAux]
          rw [if_neg hcond]
        have htake : (h :: rest).takeWhile (fun u => decide (w u ≤ now))
            = [] := by
          simp [List.takeWhile_cons, hc]
        have hdrop : (h :: rest).dropWhile (fun u => decide (w u ≤ now))
            = h :: rest := by
          simp [List.dropWhile_cons, hc]
        refine ⟨{ s with sleepList := h :: rest }, heq, ?_, ?_, ?_, ?_,
          hw, rfl⟩
        · rw [hdrop]
        · rw [htake]
          simp
        · intro u _
          rfl
        · intro u hu
          rw [htake] at hu
          simp at hu

/-- In a sleep queue sorted by ascending deadline, everything the drain
leaves behind is still in the future. -/
lemma dropWhile_not_due (w : Nat → Int) (now : Int) :
    ∀ (l : List Nat), l.Pairwise (fun a b => w a ≤ w b) →
      ∀ t ∈ l.dropWhile (fun u => decide (w u ≤ now)), ¬ (w t ≤ now) := by
  intro l
  induction l with
  | nil =>
      intro _ t ht
      simp at ht
  | cons h rest ih =>
      intro hp t ht
      by_cases hc : w h ≤ now
      · rw [List.dropWhile_cons] at ht
        simp only [decide_eq_true hc, if_true] at ht
        exact ih (List.pairwise_cons.mp hp).2 t ht
      · rw [List.dropWhile_cons] at ht
        simp only [decide_eq_false hc, Bool.false_eq_true, if_false] at ht
        rcases List.mem_cons.mp ht with he | hm
        · subst he
          exact hc
        · have hle : w h ≤ w t := (List.pairwise_cons.mp hp).1 t hm
          intro hle2
          exact hc (le_trans hle hle2)

/-- Claim C1: `timer_sleep` computes the deadline `start + ticks` and hands
it to `thread_sleep`; a thread asleep in the (sorted, duplicate-free,
all-BLOCKED) sleep queue with deadline `T` survives every wakeup call with
`now < T` still BLOCKED and outside the ready queue, while the first call
with `now ≥ T` removes it from the sleep queue, marks it READY and appends
it to the ready-queue tail exactly once — the due prefix is appended in
sleep-queue order, and `insertByDeadline` is stable, so threads due at the
same tick are unblocked in the order of their original sleep calls. -/
theorem sleep_until_wakeup_spec (s : Kernel) (t : Nat) (T now : Int)
    (hsorted : s.sleepList.Pairwise
      (fun a b => (s.tcbs a).wakeup_ticks ≤ (s.tcbs b).wakeup_ticks))
    (hblocked : ∀ u ∈ s.sleepList, (s.tcbs u).status = Status.BLOCKED)
    (hnd : s.sleepList.Nodup)
    (ht : t ∈ s.sleepList)
    (hT : (s.tcbs t).wakeup_ticks = T)
    (hr : t ∉ s.readyList) :
    (∀ s0 dt, timer_sleep s0 dt = thread_sleep s0 (s0.ticks + dt)) ∧
    (now < T → ∃ s', thread_wakeup s now = some s' ∧
      t ∈ s'.sleepList ∧ (s'.tcbs t).status = Status.BLOCKED ∧
      t ∉ s'.readyList) ∧
    (T ≤ now → ∃ s', thread_wakeup s now = some s' ∧
      t ∉ s'.sleepList ∧ (s'.tcbs t).status = Status.READY ∧
      s'.readyList = s.readyList ++ s.sleepList.takeWhile
        (fun u => decide ((s.tcbs u).wakeup_ticks ≤ now)) ∧
      s'.readyList.count t = 1) ∧
    (∀ (m : Nat → TCB) (u : Nat) (l : List Nat),
      insertByDeadline m u l =
        l.takeWhile
            (fun v => decide ((m v).wakeup_ticks ≤ (m u).wakeup_ticks))
          ++ u :: l.dropWhile
            (fun v => decide ((m v).wakeup_ticks ≤ (m u).wakeup_ticks)))
    := by
  obtain ⟨s', hrun, hsl, hrl, hstat1, hstat2, hw'', hrn⟩ :=
    wakeupAux_spec now (fun u => (s.tcbs u).wakeup_ticks) s.sleepList s
      hblocked hnd (fun u => rfl)
  have hsplit := List.takeWhile_append_dropWhile
    (fun u => decide ((s.tcbs u).wakeup_ticks ≤ now)) s.sleepList
  refine ⟨fun s0 dt => rfl, ?_, ?_, insertByDeadline_eq⟩
  · intro hlt
    have hnott : t ∉ s.sleepList.takeWhile
        (fun u => decide ((s.tcbs u).wakeup_ticks ≤ now)) := by
      intro hm
      have := List.mem_takeWhile_imp hm
      rw [decide_eq_true_eq, hT] at this
      omega
    have htdrop : t ∈ s.sleepList.dropWhile
        (fun u => decide ((s.tcbs u).wakeup_ticks ≤ now)) := by
      have := hsplit ▸ ht
      rcases List.mem_append.mp this with hm | hm
      · exact absurd hm hnott
      · exact hm
    refine ⟨s', hrun, ?_, ?_, ?_⟩
    · rw [hsl]
      exact htdrop
    · rw [hstat1 t hnott]
      exact hblocked t ht
    · rw [hrl]
      intro hm
      rcases List.mem_append.mp hm with hm | hm
      · exact hr hm
      · exact hnott hm
  · intro hge
    have hnotd : t ∉ s.sleepList.dropWhile
        (fun u => decide ((s.tcbs u).wakeup_ticks ≤ now)) := by
      intro hm
      have h2 : ¬ ((s.tcbs t).wakeup_ticks ≤ now) :=
        dropWhile_not_due (fun u => (s.tcbs u).wakeup_ticks) now
          s.sleepList hsorted t hm
      rw [hT] at h2
      omega
    have httake : t ∈ s.sleepList.takeWhile
        (fun u => decide ((s.tcbs u).wakeup_ticks ≤ now)) := by
      have := hsplit ▸ ht
      rcases List.mem_append.mp this with hm | hm
      · exact hm
      · exact absurd hm hnotd
    refine ⟨s', hrun, ?_, hstat2 t httake, hrl, ?_⟩
    · rw [hsl]
      exact hnotd
    · rw [hrl, List.count_append]
      rw [List.count_eq_zero_of_not_mem hr]
      have hndtake : (s.sleepList.takeWhile
          (fun u => decide ((s.tcbs u).wakeup_ticks ≤ now))).Nodup :=
        hnd.sublist (List.takeWhile_sublist _)
      rw [List.count_eq_one_of_mem hndtake httake]

/-- Witness for C1: in `exK`, thread 2 sleeps until tick 60; wakeup at 59
leaves it BLOCKED in the sleep queue, wakeup at 60 makes it READY at the
ready-queue tail, exactly once. -/
theorem sleep_until_wakeup_spec_witness :
    (∃ s', thread_wakeup exK 59 = some s' ∧
      2 ∈ s'.sleepList ∧ (s'.tcbs 2).status = Status.BLOCKED ∧
      2 ∉ s'.readyList) ∧
    (∃ s', thread_wakeup exK 60 = some s' ∧
      2 ∉ s'.sleepList ∧ (s'.tcbs 2).status = Status.READY ∧
      s'.readyList = exK.readyList ++ exK.sleepList.takeWhile
        (fun u => decide ((exK.tcbs u).wakeup_ticks ≤ 60)) ∧
      s'.readyList.count 2 = 1) :=
  ⟨(sleep_until_wakeup_spec exK 2 60 59 (by decide) (by decide) (by decide)
      (by decide) (by decide) (by decide)).2.1 (by decide),
   (sleep_until_wakeup_spec exK 2 60 60 (by decide) (by decide) (by decide)
      (by decide) (by decide) (by decide)).2.2.1 (by decide)⟩

end Kaist
